import Mathlib

/-!
Verification of the two utilities in this repository:

* `deploy/scripts/inject_key.py` — a one-shot text substitution script that
  reads a key file and a config file and replaces a placeholder token in the
  config with the (indented) key content.
* `deploy/exporter/exporter.py` — a periodic Docker-container metadata
  exporter whose `collect_metrics` rebuilds a labelled gauge observation set
  on each cycle.

File contents are modelled as `List Char`.  The Python string primitives used
by the scripts (`str.replace`, the `in` operator, `str.rstrip`,
`file.readlines`, `str.lstrip`) are embedded below with matching semantics;
the replacement patterns appearing in the scripts are nonempty literals, so
the empty-pattern corner of `str.replace` never arises.
-/

set_option maxHeartbeats 1000000

namespace InjectKey

/-- Boolean test that `pat` is a prefix of `s` (character lists). -/
def isPre : List Char → List Char → Bool
  | [], _ => true
  | _ :: _, [] => false
  | a :: as, b :: bs => a = b && isPre as bs

/-- Boolean test that `pat` occurs as a contiguous substring of `s`;
this is the semantics of the Python `in` operator on strings. -/
def containsSub (pat : List Char) : List Char → Bool
  | [] => isPre pat []
  | c :: rest => isPre pat (c :: rest) || containsSub pat rest

/-- Worker for `replaceAll`: scans the text left to right with a nonempty
pattern `p :: pt`.  The `skip` counter consumes the remaining characters of a
pattern occurrence that has just been matched and replaced, so each emitted
replacement advances the scan past the whole match, exactly as Python
`str.replace` does with its non-overlapping left-to-right scan. -/
def replaceAllP (p : Char) (pt repl : List Char) : Nat → List Char → List Char
  | _, [] => []
  | 0, c :: rest =>
    if isPre (p :: pt) (c :: rest) then
      repl ++ replaceAllP p pt repl pt.length rest
    else
      c :: replaceAllP p pt repl 0 rest
  | n + 1, _ :: rest => replaceAllP p pt repl n rest

/-- Semantics of Python `s.replace(pat, repl)` for a nonempty pattern: every
non-overlapping occurrence, scanning left to right, is replaced.  Both call
sites in `inject_key.py` pass a nonempty literal pattern, so the `[]` branch
is never exercised. -/
def replaceAll (pat repl s : List Char) : List Char :=
  match pat with
  | [] => s
  | p :: pt => replaceAllP p pt repl 0 s

/-- Characters stripped by Python `str.rstrip()` with no argument (the ASCII
whitespace characters; no other whitespace appears in these inputs). -/
def isPySpace (c : Char) : Bool :=
  c = ' ' || c = '\t' || c = '\n' || c = '\r' || c = '\x0b' || c = '\x0c'

/-- Semantics of Python `s.rstrip()`: remove trailing whitespace. -/
def rstrip (s : List Char) : List Char :=
  (s.reverse.dropWhile isPySpace).reverse

/-- Semantics of Python `f.readlines()` on the file content `s`: split into
lines, each keeping its trailing newline; a final fragment without a newline
is kept as-is; an empty content yields no lines. -/
def readlines : List Char → List (List Char)
  | [] => []
  | c :: rest =>
    if c = '\n' then ['\n'] :: readlines rest
    else
      match readlines rest with
      | [] => [[c]]
      | l :: ls => (c :: l) :: ls

/-- The fixed indentation used by the script: 16 spaces. -/
def indent : List Char := List.replicate 16 ' '

/-- The bare placeholder token. -/
def BARE : List Char := "__OIDC_KEY_PLACEHOLDER__".toList

/-- The indented placeholder searched for first: 16 spaces followed by the
bare token (the variable `target` in the script). -/
def target : List Char := indent ++ BARE

/-- The `key_content` variable of the script: every line of the key file,
prefixed with the 16-space indentation, concatenated. -/
def keyContent (key : List Char) : List Char :=
  List.flatten ((readlines key).map (fun l => indent ++ l))

/-- The pure content transformation performed by `inject_key` once both reads
have succeeded: if the indented placeholder occurs in the config, replace it
(Python `replace`, hence all occurrences) with the right-stripped indented
key; otherwise replace the bare token with the indented key as-is. -/
def inject_key (key config : List Char) : List Char :=
  let key_content := keyContent key
  if containsSub target config then
    replaceAll target (rstrip key_content) config
  else
    replaceAll BARE key_content config

/-- Observable outcome of one `inject_key` process invocation: the process
exit code, and the content written to the config file (`none` when the write
statement is never reached). -/
structure RunResult where
  exit_code : Nat
  written : Option (List Char)
deriving DecidableEq, Repr

/-- One full run of `inject_key`: the two reads may fail (modelled as
`none`), in which case the exception handler prints the error and calls
`sys.exit(1)` before the write statement is reached; when both reads succeed
the transformed content is written and the process ends with status 0. -/
def inject_key_run (keyRead configRead : Option (List Char)) : RunResult :=
  match keyRead with
  | none => ⟨1, none⟩
  | some key =>
    match configRead with
    | none => ⟨1, none⟩
    | some config => ⟨0, some (inject_key key config)⟩

/-- The key file content of the worked example in the spec. -/
def keyC8 : List Char := "LINE1\nLINE2\n".toList

/-- The replacement text the worked example expects for the indented path. -/
def replC8 : List Char := ("                LINE1\n                LINE2").toList

end InjectKey

namespace Exporter

/-- The six-field label tuple of the `container_meta_info` gauge, in the
order of the label declaration in `exporter.py`:
`id` (short 12-char), `name`, `image`, `com_docker_compose_service`,
`state`, `full_id`. -/
structure LabelTuple where
  id : List Char
  name : List Char
  image : List Char
  service : List Char
  state : List Char
  full_id : List Char
deriving DecidableEq, Repr

/-- The image object reachable from a container: its tag list and its own
identifier, used as a fallback when the tag list is empty. -/
structure ImageRef where
  tags : List (List Char)
  iid : List Char
deriving DecidableEq, Repr

/-- One container as returned by the runtime listing.  Accessing `image` can
raise in the runtime client (for example a malformed or removed image
reference), which is the per-container failure the inner `try` of
`collect_metrics` recovers from; the other attribute reads are plain field
accesses. -/
structure Container where
  id : List Char
  name : List Char
  status : List Char
  image : Except Unit ImageRef
  labels : List (List Char × List Char)

/-- The compose-service label key looked up in the container labels. -/
def composeServiceKey : List Char := "com.docker.compose.service".toList

/-- Semantics of Python `labels.get(k, d)` on the label mapping. -/
def lookupDefault (labels : List (List Char × List Char)) (k d : List Char) :
    List Char :=
  match labels.find? (fun p => p.1 == k) with
  | some p => p.2
  | none => d

/-- The label tuple built in the loop body of `collect_metrics` for a
container whose image access succeeded: short id is the first 12 characters
of the id, the name is stripped of leading slashes, the image is the first
tag or else the image id, and the service falls back to the stripped name. -/
def tupleOf (c : Container) (img : ImageRef) : LabelTuple :=
  let name := c.name.dropWhile (· == '/')
  { id := c.id.take 12
    name := name
    image := match img.tags with | [] => img.iid | t :: _ => t
    service := lookupDefault c.labels composeServiceKey name
    state := c.status
    full_id := c.id }

/-- The attribute-extraction step of the loop body: it fails exactly when
the image access raises, and otherwise yields the label tuple. -/
def extract (c : Container) : Except Unit LabelTuple :=
  match c.image with
  | .error e => .error e
  | .ok img => .ok (tupleOf c img)

/-- Errors printed by `collect_metrics`: the outer handler reports a runtime
connection failure, the inner handler reports a per-container failure with
the short id of the container. -/
inductive Report where
  | connectionError
  | containerError (short_id : List Char)
deriving DecidableEq, Repr

/-- The gauge child mapping of `CONTAINER_META`: label tuples to values, in
insertion order, as the metrics dict of the client library keeps them. -/
abbrev ObsSet := List (LabelTuple × Nat)

/-- Semantics of `CONTAINER_META.labels(...).set(v)`: update the value at
the label tuple when the child exists, otherwise append a new child. -/
def setObs (s : ObsSet) (k : LabelTuple) (v : Nat) : ObsSet :=
  if s.any (fun p => decide (p.1 = k)) then
    s.map (fun p => if p.1 = k then (p.1, v) else p)
  else s ++ [(k, v)]

/-- The `for container in containers` loop of `collect_metrics`, threading
the observation set: a container whose extraction fails is skipped and a
report is emitted, a successful container sets its label tuple to 1. -/
def processContainers : List Container → ObsSet → ObsSet × List Report
  | [], s => (s, [])
  | c :: rest, s =>
    match extract c with
    | .error _ =>
      let r := processContainers rest s
      (r.1, Report.containerError (c.id.take 12) :: r.2)
    | .ok t => processContainers rest (setObs s t 1)

/-- One invocation of `collect_metrics`.  The runtime query (building the
client and listing the containers) happens first; if it raises, the outer
handler reports the connection error and the observation set is untouched.
On success the gauge is cleared (`CONTAINER_META.clear()`) and the loop
repopulates it from an empty set. -/
def collect_metrics (query : Except Unit (List Container)) (s : ObsSet) :
    ObsSet × List Report :=
  match query with
  | .error _ => (s, [Report.connectionError])
  | .ok containers => processContainers containers []

/-- The label tuples of the containers whose extraction succeeds, in list
order. -/
def okTuples (cs : List Container) : List LabelTuple :=
  cs.filterMap (fun c => (extract c).toOption)

/-- Tagged image used by the concrete exporter scenarios. -/
def demoImg : ImageRef := { tags := ["app:latest".toList], iid := "sha256aaa".toList }

/-- A compose-managed running container with a tagged image. -/
def demoA : Container :=
  { id := "aaaaaaaaaaaaaaaa".toList
    name := "/web".toList
    status := "running".toList
    image := .ok demoImg
    labels := [(composeServiceKey, "web".toList)] }

/-- An exited container with an untagged image and no compose label. -/
def demoB : Container :=
  { id := "bbbbbbbbbbbbbbbb".toList
    name := "db".toList
    status := "exited".toList
    image := .ok { tags := [], iid := "sha256bbb".toList }
    labels := [] }

/-- A container whose image access raises, so extraction fails for it. -/
def demoBad : Container :=
  { id := "cccccccccccccccc".toList
    name := "ghost".toList
    status := "dead".toList
    image := .error ()
    labels := [] }

/-- A concrete label tuple used to exhibit a pre-existing observation. -/
def demoTuple : LabelTuple :=
  { id := "dddddddddddd".toList
    name := "old".toList
    image := "app:0".toList
    service := "old".toList
    state := "running".toList
    full_id := "ddddddddddddddd".toList }

end Exporter

namespace InjectKey

lemma isPre_append_self (xs t : List Char) : isPre xs (xs ++ t) = true := by
  induction xs with
  | nil => rfl
  | cons a as ih => simp [isPre, ih]

lemma containsSub_cons_of (pat : List Char) (c : Char) (rest : List Char)
    (h : containsSub pat rest = true) : containsSub pat (c :: rest) = true := by
  simp [containsSub, h]

lemma containsSub_append (pat a b : List Char) :
    containsSub pat (a ++ pat ++ b) = true := by
  induction a with
  | nil =>
    cases pat with
    | nil =>
      simp only [List.nil_append]
      induction b with
      | nil => rfl
      | cons c r ih => simp [containsSub, isPre]
    | cons p pt =>
      simp only [List.nil_append, List.cons_append, containsSub, Bool.or_eq_true]
      exact Or.inl (by simpa using isPre_append_self (p :: pt) b)
  | cons c a ih => exact containsSub_cons_of _ _ _ ih

lemma replaceAllP_skip (p : Char) (pt repl : List Char) (xs ys : List Char) :
    replaceAllP p pt repl xs.length (xs ++ ys) = replaceAllP p pt repl 0 ys := by
  induction xs with
  | nil => rfl
  | cons x xs ih => simpa [replaceAllP] using ih

lemma replaceAllP_not_contains (p : Char) (pt repl : List Char) (s : List Char)
    (h : containsSub (p :: pt) s = false) :
    replaceAllP p pt repl 0 s = s := by
  induction s with
  | nil => rfl
  | cons c rest ih =>
    rw [containsSub] at h
    rcases Bool.or_eq_false_iff.mp h with ⟨h1, h2⟩
    simp [replaceAllP, h1, ih h2]

lemma replaceAll_not_contains (pat repl s : List Char)
    (h : containsSub pat s = false) :
    replaceAll pat repl s = s := by
  cases pat with
  | nil => rfl
  | cons p pt => exact replaceAllP_not_contains p pt repl s h

lemma replaceAllP_first (p : Char) (pt repl b : List Char) :
    ∀ a : List Char,
    (∀ i, i < a.length → isPre (p :: pt) ((a ++ (p :: pt) ++ b).drop i) = false) →
    replaceAllP p pt repl 0 (a ++ (p :: pt) ++ b) =
      a ++ repl ++ replaceAllP p pt repl 0 b := by
  intro a
  induction a with
  | nil =>
    intro _
    have hp : isPre (p :: pt) (p :: (pt ++ b)) = true := by
      simpa using isPre_append_self (p :: pt) b
    have hskip : replaceAllP p pt repl pt.length (pt ++ b) =
        replaceAllP p pt repl 0 b := replaceAllP_skip p pt repl pt b
    simp [replaceAllP, hp, hskip]
  | cons c a ih =>
    intro h
    have h0 : isPre (p :: pt) (c :: (a ++ (p :: pt) ++ b)) = false := by
      simpa using h 0 (by simp)
    have hrest : ∀ i, i < a.length →
        isPre (p :: pt) ((a ++ (p :: pt) ++ b).drop i) = false := by
      intro i hi
      simpa using h (i + 1) (by simpa using Nat.succ_lt_succ hi)
    simp only [List.cons_append]
    rw [replaceAllP]
    simp only [h0, if_false]
    rw [ih hrest]
    simp

lemma replaceAll_first (pat repl a b : List Char) (hne : pat ≠ [])
    (h : ∀ i, i < a.length → isPre pat ((a ++ pat ++ b).drop i) = false) :
    replaceAll pat repl (a ++ pat ++ b) = a ++ repl ++ replaceAll pat repl b := by
  cases pat with
  | nil => exact absurd rfl hne
  | cons p pt => exact replaceAllP_first p pt repl b a h

end InjectKey

namespace InjectKey

/-- C8: when the key file content is "LINE1\nLINE2\n" and the config file
contains the indented placeholder (16 spaces + the token) exactly once
(first match at the split point, none later), inject_key produces the config
with that indented token replaced by 16 spaces + "LINE1", a newline, then
16 spaces + "LINE2" (indentation added per key line, trailing whitespace
trimmed), and every other byte of the config content unchanged. -/
theorem inject_indented_single (a b : List Char)
    (hfirst : ∀ i, i < a.length → isPre target ((a ++ target ++ b).drop i) = false)
    (hb : containsSub target b = false) :
    inject_key keyC8 (a ++ target ++ b) = a ++ replC8 ++ b := by
  have hc : containsSub target (a ++ target ++ b) = true :=
    containsSub_append target a b
  have hkey : rstrip (keyContent keyC8) = replC8 := by decide
  simp only [inject_key, hc, if_true]
  rw [replaceAll_first target _ a b (by decide) hfirst,
      replaceAll_not_contains target _ b hb, hkey]

/-- Witness for C8 at a concrete config split "key:\n" ++ target ++ "\nend\n". -/
theorem inject_indented_single_witness :
    (∀ i, i < ("key:\n".toList).length →
      isPre target ((("key:\n".toList) ++ target ++ ("\nend\n".toList)).drop i) = false) ∧
    containsSub target ("\nend\n".toList) = false ∧
    inject_key keyC8 (("key:\n".toList) ++ target ++ ("\nend\n".toList)) =
      ("key:\n".toList) ++ replC8 ++ ("\nend\n".toList) :=
  ⟨by decide, by decide,
    inject_indented_single ("key:\n".toList) ("\nend\n".toList) (by decide) (by decide)⟩

/-- C1 counterexample: in a config consisting of the indented placeholder
twice in a row, inject_key replaces BOTH occurrences — no later occurrence
remains intact in the written content, contrary to the claim. -/
theorem inject_first_only_cex :
    inject_key ("K\n".toList) (target ++ target) =
      (("                K").toList ++ ("                K").toList) ∧
    containsSub BARE (inject_key ("K\n".toList) (target ++ target)) = false := by
  exact ⟨by decide, by decide⟩

/-- C1 amended: when the indented placeholder occurs (as first matches)
twice, inject_key substitutes EVERY occurrence of the placeholder with the
trimmed indented key content, not only the first one. -/
theorem inject_indented_all (key a b c : List Char)
    (h1 : ∀ i, i < a.length →
      isPre target ((a ++ target ++ (b ++ target ++ c)).drop i) = false)
    (h2 : ∀ i, i < b.length →
      isPre target ((b ++ target ++ c).drop i) = false)
    (h3 : containsSub target c = false) :
    inject_key key (a ++ target ++ (b ++ target ++ c)) =
      a ++ rstrip (keyContent key) ++ (b ++ rstrip (keyContent key) ++ c) := by
  have hc : containsSub target (a ++ target ++ (b ++ target ++ c)) = true :=
    containsSub_append target a (b ++ target ++ c)
  simp only [inject_key, hc, if_true]
  rw [replaceAll_first target _ a (b ++ target ++ c) (by decide) h1,
      replaceAll_first target _ b c (by decide) h2,
      replaceAll_not_contains target _ c h3]

/-- Witness for the amended C1 on a config with two indented placeholders. -/
theorem inject_indented_all_witness :
    (∀ i, i < ("A\n".toList).length →
      isPre target ((("A\n".toList) ++ target ++ (("B\n".toList) ++ target ++ ("C\n".toList))).drop i) = false) ∧
    (∀ i, i < ("B\n".toList).length →
      isPre target ((("B\n".toList) ++ target ++ ("C\n".toList)).drop i) = false) ∧
    containsSub target ("C\n".toList) = false ∧
    inject_key ("K\n".toList) (("A\n".toList) ++ target ++ (("B\n".toList) ++ target ++ ("C\n".toList))) =
      ("A\n".toList) ++ rstrip (keyContent ("K\n".toList)) ++
        (("B\n".toList) ++ rstrip (keyContent ("K\n".toList)) ++ ("C\n".toList)) :=
  ⟨by decide, by decide, by decide,
    inject_indented_all ("K\n".toList) ("A\n".toList) ("B\n".toList) ("C\n".toList)
      (by decide) (by decide) (by decide)⟩

/-- C2 counterexample: for a config that is exactly the bare token (so the
indented placeholder is absent), inject_key inserts the INDENTED key content
— a 16-space prefix is added to the key line, contrary to the claim that the
key is inlined without added indentation. -/
theorem inject_bare_cex :
    containsSub target BARE = false ∧
    containsSub BARE BARE = true ∧
    inject_key ("K\n".toList) BARE = ("                K\n").toList ∧
    inject_key ("K\n".toList) BARE ≠ ("K\n").toList := by
  exact ⟨by decide, by decide, by decide, by decide⟩

/-- C2 amended: when the config contains the bare token but not the indented
placeholder, inject_key replaces the bare token with the INDENTED key
content (each key line carries the 16-space prefix, nothing trimmed). -/
theorem inject_bare_indented (key a b : List Char)
    (hno : containsSub target (a ++ BARE ++ b) = false)
    (h1 : ∀ i, i < a.length → isPre BARE ((a ++ BARE ++ b).drop i) = false)
    (h2 : containsSub BARE b = false) :
    inject_key key (a ++ BARE ++ b) = a ++ keyContent key ++ b := by
  simp only [inject_key, hno, if_false, Bool.false_eq_true]
  rw [replaceAll_first BARE _ a b (by decide) h1,
      replaceAll_not_contains BARE _ b h2]

/-- Witness for the amended C2 on the config "x=" ++ BARE ++ ";\n". -/
theorem inject_bare_indented_witness :
    containsSub target (("x=".toList) ++ BARE ++ (";\n".toList)) = false ∧
    (∀ i, i < ("x=".toList).length →
      isPre BARE ((("x=".toList) ++ BARE ++ (";\n".toList)).drop i) = false) ∧
    containsSub BARE (";\n".toList) = false ∧
    inject_key ("K\n".toList) (("x=".toList) ++ BARE ++ (";\n".toList)) =
      ("x=".toList) ++ keyContent ("K\n".toList) ++ (";\n".toList) :=
  ⟨by decide, by decide, by decide,
    inject_bare_indented ("K\n".toList) ("x=".toList) (";\n".toList)
      (by decide) (by decide) (by decide)⟩

/-- C9: when the config contains neither placeholder variant, the run writes
the config back byte-identical and the process ends with exit status 0. -/
theorem inject_no_placeholder (key config : List Char)
    (h1 : containsSub target config = false)
    (h2 : containsSub BARE config = false) :
    inject_key_run (some key) (some config) = ⟨0, some config⟩ := by
  simp only [inject_key_run, inject_key, h1, if_false, Bool.false_eq_true,
    replaceAll_not_contains BARE (keyContent key) config h2]

/-- Witness for C9 on a config with no placeholder at all. -/
theorem inject_no_placeholder_witness :
    containsSub target ("nothing here\n".toList) = false ∧
    containsSub BARE ("nothing here\n".toList) = false ∧
    inject_key_run (some ("K\n".toList)) (some ("nothing here\n".toList)) =
      ⟨0, some ("nothing here\n".toList)⟩ :=
  ⟨by decide, by decide,
    inject_no_placeholder ("K\n".toList) ("nothing here\n".toList) (by decide) (by decide)⟩

/-- C10: when reading the key file or reading the config file fails, the
process exits with status 1 and the config file is never written. -/
theorem inject_read_failure (keyRead configRead : Option (List Char))
    (h : keyRead = none ∨ configRead = none) :
    inject_key_run keyRead configRead = ⟨1, none⟩ := by
  cases keyRead with
  | none => rfl
  | some key =>
    cases configRead with
    | none => rfl
    | some config =>
      rcases h with h | h <;> exact absurd h (by simp)

/-- Witness for C10 with a failing key read and a readable config. -/
theorem inject_read_failure_witness :
    ((none : Option (List Char)) = none ∨ (some ("cfg".toList)) = none) ∧
    inject_key_run none (some ("cfg".toList)) = ⟨1, none⟩ :=
  ⟨Or.inl rfl, inject_read_failure none (some ("cfg".toList)) (Or.inl rfl)⟩

end InjectKey

namespace Exporter

lemma setObs_not_mem (s : ObsSet) (k : LabelTuple) (v : Nat)
    (h : k ∉ s.map Prod.fst) : setObs s k v = s ++ [(k, v)] := by
  have hany : s.any (fun p => decide (p.1 = k)) = false := by
    rw [Bool.eq_false_iff]
    intro htrue
    rcases List.any_eq_true.mp htrue with ⟨p, hp, hq⟩
    exact h (List.mem_map.mpr ⟨p, hp, of_decide_eq_true hq⟩)
  simp [setObs, hany]

lemma okTuples_cons_ok (c : Container) (rest : List Container) (t : LabelTuple)
    (h : extract c = .ok t) : okTuples (c :: rest) = t :: okTuples rest := by
  simp [okTuples, h, Except.toOption]

lemma okTuples_length (cs : List Container)
    (h : ∀ c ∈ cs, (extract c).toOption.isSome = true) :
    (okTuples cs).length = cs.length := by
  induction cs with
  | nil => rfl
  | cons c rest ih =>
    have hc := h c (by simp)
    cases hx : extract c with
    | error e => rw [hx] at hc; simp [Except.toOption] at hc
    | ok t =>
      rw [okTuples_cons_ok c rest t hx]
      simp [ih (fun d hd => h d (by simp [hd]))]

lemma processContainers_all_ok (cs : List Container) :
    ∀ s : ObsSet,
    (∀ c ∈ cs, (extract c).toOption.isSome = true) →
    (s.map Prod.fst ++ okTuples cs).Nodup →
    (processContainers cs s).1 = s ++ (okTuples cs).map (fun t => (t, 1)) := by
  induction cs with
  | nil => intro s _ _; simp [processContainers, okTuples]
  | cons c rest ih =>
    intro s hok hnd
    cases hx : extract c with
    | error e =>
      have hc := hok c (by simp)
      rw [hx] at hc
      simp [Except.toOption] at hc
    | ok t =>
      rw [okTuples_cons_ok c rest t hx] at hnd
      have hknot : t ∉ s.map Prod.fst := by
        intro hmem
        rcases List.nodup_append.mp hnd with ⟨_, _, hdisj⟩
        exact hdisj hmem (by simp)
      simp only [processContainers, hx]
      rw [setObs_not_mem s t 1 hknot]
      have hok2 : ∀ d ∈ rest, (extract d).toOption.isSome = true :=
        fun d hd => hok d (by simp [hd])
      have hnd2 : ((s ++ [(t, 1)]).map Prod.fst ++ okTuples rest).Nodup := by
        have heq : (s ++ [(t, 1)]).map Prod.fst ++ okTuples rest =
            s.map Prod.fst ++ (t :: okTuples rest) := by simp
        rw [heq]; exact hnd
      rw [ih (s ++ [(t, 1)]) hok2 hnd2, okTuples_cons_ok c rest t hx]
      simp

lemma okTuples_map_full_id (cs : List Container)
    (h : ∀ c ∈ cs, (extract c).toOption.isSome = true) :
    (okTuples cs).map LabelTuple.full_id = cs.map Container.id := by
  induction cs with
  | nil => rfl
  | cons c rest ih =>
    have hc := h c (by simp)
    cases hx : extract c with
    | error e => rw [hx] at hc; simp [Except.toOption] at hc
    | ok t =>
      have hfid : t.full_id = c.id := by
        cases himg : c.image with
        | error e => simp [extract, himg] at hx
        | ok img =>
          simp only [extract, himg, Except.ok.injEq] at hx
          rw [← hx]
          rfl
      rw [okTuples_cons_ok c rest t hx]
      simp [hfid, ih (fun d hd => h d (by simp [hd]))]

lemma okTuples_nodup_of_id_nodup (cs : List Container)
    (h1 : ∀ c ∈ cs, (extract c).toOption.isSome = true)
    (h2 : (cs.map Container.id).Nodup) : (okTuples cs).Nodup := by
  have hmap : ((okTuples cs).map LabelTuple.full_id).Nodup := by
    rw [okTuples_map_full_id cs h1]; exact h2
  exact List.Nodup.of_map _ hmap

/-- C3: when the runtime query fails, collect_metrics leaves the published
observation set exactly as it was, reports the connection error, and returns
normally (it is a total function of the state). -/
theorem collect_conn_error (s : ObsSet) :
    (collect_metrics (.error ()) s).1 = s ∧
    (collect_metrics (.error ()) s).2 = [Report.connectionError] :=
  ⟨rfl, rfl⟩

/-- C4 counterexample: on a failed runtime query, a pre-existing observation
is NOT removed — the cycle does not clear the set unconditionally. -/
theorem collect_clear_cex :
    (collect_metrics (.error ()) [(demoTuple, 1)]).1 = [(demoTuple, 1)] ∧
    (demoTuple, 1) ∈ (collect_metrics (.error ()) [(demoTuple, 1)]).1 :=
  ⟨rfl, by decide⟩

/-- C4 amended: whenever the runtime query succeeds the whole observation
set is cleared before repopulating (the result does not depend on the prior
state at all); when the query fails the prior set is left untouched. -/
theorem collect_clear_amended (cs : List Container) (s s2 : ObsSet) :
    (collect_metrics (.ok cs) s).1 = (collect_metrics (.ok cs) s2).1 ∧
    (collect_metrics (.error ()) s).1 = s :=
  ⟨rfl, rfl⟩

/-- C5: for a successful query returning containers with pairwise distinct
label tuples and no extraction failure, one collect_metrics call publishes
exactly one entry per container, keyed by its label tuple, with value 1. -/
theorem collect_complete (cs : List Container) (s : ObsSet)
    (h1 : ∀ c ∈ cs, (extract c).toOption.isSome = true)
    (h2 : (okTuples cs).Nodup) :
    (collect_metrics (.ok cs) s).1 = (okTuples cs).map (fun t => (t, 1)) ∧
    (collect_metrics (.ok cs) s).1.length = cs.length := by
  have hmain : (processContainers cs []).1 =
      (okTuples cs).map (fun t => (t, 1)) := by
    have h := processContainers_all_ok cs [] h1 (by simpa using h2)
    simpa using h
  refine ⟨hmain, ?_⟩
  show (processContainers cs []).1.length = cs.length
  rw [hmain]
  simp [okTuples_length cs h1]

/-- Witness for C5 on two concrete containers with distinct ids. -/
theorem collect_complete_witness :
    (∀ c ∈ [demoA, demoB], (extract c).toOption.isSome = true) ∧
    (okTuples [demoA, demoB]).Nodup ∧
    ((collect_metrics (.ok [demoA, demoB]) []).1 =
        (okTuples [demoA, demoB]).map (fun t => (t, 1)) ∧
      (collect_metrics (.ok [demoA, demoB]) []).1.length =
        ([demoA, demoB] : List Container).length) :=
  ⟨by decide, by decide, collect_complete [demoA, demoB] [] (by decide) (by decide)⟩

/-- C6: with an unchanged container list, running two consecutive cycles
yields an observation set identical to the single-cycle result. -/
theorem collect_idempotent (cs : List Container) (s : ObsSet) :
    (collect_metrics (.ok cs) ((collect_metrics (.ok cs) s).1)).1 =
      (collect_metrics (.ok cs) s).1 :=
  rfl

lemma processContainers_skip (bad : Container) (post : List Container)
    (hb : extract bad = .error ()) :
    ∀ (pre : List Container) (s : ObsSet),
    (processContainers (pre ++ bad :: post) s).1 =
      (processContainers (pre ++ post) s).1 ∧
    Report.containerError (bad.id.take 12) ∈
      (processContainers (pre ++ bad :: post) s).2 := by
  intro pre
  induction pre with
  | nil =>
    intro s
    simp [processContainers, hb]
  | cons c pre ih =>
    intro s
    simp only [List.cons_append, processContainers]
    cases hx : extract c with
    | error e => exact ⟨(ih s).1, by simp [(ih s).2]⟩
    | ok t => exact ih (setObs s t 1)

/-- C7: a per-container extraction failure skips exactly that container and
reports it, while every other container is still processed: the published
set equals the run on the list without the failing container, and the report
list names the failing container. -/
theorem collect_skip_failure (pre post : List Container) (bad : Container)
    (s : ObsSet) (hb : extract bad = .error ()) :
    (collect_metrics (.ok (pre ++ bad :: post)) s).1 =
      (collect_metrics (.ok (pre ++ post)) s).1 ∧
    Report.containerError (bad.id.take 12) ∈
      (collect_metrics (.ok (pre ++ bad :: post)) s).2 :=
  processContainers_skip bad post hb pre []

/-- Witness for C7 with a failing container between two healthy ones. -/
theorem collect_skip_failure_witness :
    extract demoBad = .error () ∧
    ((collect_metrics (.ok ([demoA] ++ demoBad :: [demoB])) []).1 =
        (collect_metrics (.ok ([demoA] ++ [demoB])) []).1 ∧
      Report.containerError (demoBad.id.take 12) ∈
        (collect_metrics (.ok ([demoA] ++ demoBad :: [demoB])) []).2) :=
  ⟨rfl, collect_skip_failure [demoA] [demoB] demoBad [] rfl⟩

end Exporter
